import Mathlib

/-!
Shallow embedding of the continued-fraction regression model (class
CFModel of the notebook source).  Numpy arrays of doubles are modelled
as lists of rationals; a fitted sklearn linear sub-model is modelled by
the data predict consumes, a coefficient vector and an intercept.  The
per-depth linear solver (LinearRegression().fit / Lasso().fit) is an
external collaborator and is abstracted as an oracle parameter; a
solver returning none models the solver raising.  Out-of-range numpy /
list indexing (a Python IndexError) is modelled by Option, and the fit
loop returns, on a raised exception, the object state exactly as the
exception leaves it (Python mutations made before the raise persist).
-/

namespace CF

/-- A row of the feature matrix: one sample's feature values. -/
abbrev Row := List ℚ

/-- Feature matrix: the list of sample rows. -/
abbrev Matrix := List Row

/-- A fitted linear sub-model (sklearn regressor): coefficient vector
and intercept, the only data its predict consumes. -/
structure LinModel where
  coef : List ℚ
  intercept : ℚ
deriving DecidableEq, Repr

instance : Inhabited LinModel := ⟨⟨[], 0⟩⟩

/-- Prediction of a linear sub-model on one sample row. -/
def LinModel.predictRow (m : LinModel) (x : Row) : ℚ :=
  m.intercept + (List.zipWith (fun a b => a * b) m.coef x).sum

/-- model.predict(X): row-wise prediction over the feature matrix. -/
def LinModel.predict (m : LinModel) (X : Matrix) : List ℚ :=
  X.map m.predictRow

/-- Elementwise vector sum (numpy a + b). -/
def vadd (a b : List ℚ) : List ℚ := List.zipWith (fun x y => x + y) a b

/-- Elementwise vector difference (numpy a - b). -/
def vsub (a b : List ℚ) : List ℚ := List.zipWith (fun x y => x - y) a b

/-- Add a scalar to every entry (numpy a + c). -/
def vaddc (a : List ℚ) (c : ℚ) : List ℚ := a.map (fun x => x + c)

/-- Subtract a scalar from every entry (numpy a - c). -/
def vsubc (a : List ℚ) (c : ℚ) : List ℚ := a.map (fun x => x - c)

/-- Elementwise reciprocal (numpy 1 / a). -/
def vrecip (a : List ℚ) : List ℚ := a.map (fun x => 1 / x)

/-- numpy a.min() on a nonempty array (junk value 0 on the empty
array, where numpy would raise instead). -/
def minD : List ℚ → ℚ
  | [] => 0
  | a :: t => t.foldl min a

/-- The mutable state of a CFModel instance that fit, predict and mse
touch.  X_test and y_test are the held-out split (empty when the model
is built with test_size = 0). -/
structure CFState where
  depth : ℕ
  X : Matrix
  y : List ℚ
  X_test : Matrix
  y_test : List ℚ
  lasso : Bool
  linear_models : List LinModel
  min_coeff : List ℚ
deriving DecidableEq, Repr

/-- State of a freshly constructed model: read_data has parsed (X, y),
divided y by norm, allocated min_coeff as depth + 2 zeros, and
test_size = 0 so no split happened.  No sub-models exist yet. -/
def mkState (depth : ℕ) (X : Matrix) (y : List ℚ) (norm : ℚ) (lasso : Bool) : CFState :=
  { depth := depth
    X := X
    y := y.map (fun v => v / norm)
    X_test := []
    y_test := []
    lasso := lasso
    linear_models := []
    min_coeff := List.replicate (depth + 2) 0 }

/-- compute_depth(d, X_pred) = self.linear_models[d].predict(X_pred);
none models the Python IndexError when d is out of range. -/
def compute_depth (models : List LinModel) (d : ℕ) (X_pred : Matrix) : Option (List ℚ) :=
  (models[d]?).map (fun m => m.predict X_pred)

/-- compute_recursive(d, X_pred, max_depth, X_pred_orig) of the source
(the last argument is never used there), indexed by the remaining
recursion fuel k = max_depth - 1 - d, so the clause at fuel 0 is the
source branch d == max_depth - 1.  none models an IndexError on
linear_models[d] or min_coeff[d]. -/
def compute_recursive (models : List LinModel) (minc : List ℚ) (X_pred : Matrix) :
    ℕ → ℕ → Option (List ℚ)
  | d, 0 =>
    match compute_depth models d X_pred, minc[d]? with
    | some p, some c => some (vsubc (vrecip p) c)
    | _, _ => none
  | d, k + 1 =>
    match compute_depth models d X_pred, minc[d]?,
        compute_recursive models minc X_pred (d + 1) k with
    | some p, some c, some inner => some (vsubc (vrecip (vadd p inner)) c)
    | _, _, _ => none

/-- predict(X_pred, max_depth) on given sub-models and offsets:
max_depth < 2 returns the depth-0 linear prediction, otherwise the
nested fraction.  max_depth is an arbitrary integer, exactly as in the
source, which performs no validation on it. -/
def CFPredict (models : List LinModel) (minc : List ℚ) (X_pred : Matrix)
    (max_depth : ℤ) : Option (List ℚ) :=
  if max_depth < 2 then compute_depth models 0 X_pred
  else
    match compute_depth models 0 X_pred,
        compute_recursive models minc X_pred 1 (max_depth - 2).toNat with
    | some p, some r => some (vadd p r)
    | _, _ => none

/-- Method form: self.predict(X_pred, max_depth). -/
def CFState.predict (s : CFState) (X_pred : Matrix) (max_depth : ℤ) : Option (List ℚ) :=
  CFPredict s.linear_models s.min_coeff X_pred max_depth

/-- self.predict(X_pred) with the default max_depth = self.depth. -/
def CFState.predictD (s : CFState) (X_pred : Matrix) : Option (List ℚ) :=
  s.predict X_pred s.depth

/-- The per-depth linear solver (the external sklearn fit call); none
models the solver raising on the given problem. -/
abbrev Solver := Matrix → List ℚ → Option LinModel

/-- One iteration of the fit loop, at loop counter
d = s.linear_models.length: solve for the sub-model, append it, run
the (discarded) self.predict(self.X, d + 1) call, store
min_coeff[d + 1], shift the residual and build the next yfit.  An
error result carries the object state as the raised exception leaves
it. -/
def fitIter (solve : Solver) (s : CFState) (yfit : List ℚ) :
    Except CFState (CFState × List ℚ) :=
  let d := s.linear_models.length
  match solve s.X yfit with
  | none => .error s
  | some model =>
    let s1 := { s with linear_models := s.linear_models ++ [model] }
    match s1.predict s1.X ((d : ℤ) + 1) with
    | none => .error s1
    | some _ =>
      let residual := vsub yfit (model.predict s.X)
      let c := |minD residual| + 1
      let s2 := { s1 with min_coeff := s1.min_coeff.set (d + 1) c }
      .ok (s2, vrecip (vaddc residual c))

/-- The fit loop with k iterations remaining. -/
def fitLoop (solve : Solver) : ℕ → CFState → List ℚ → Except CFState (CFState × List ℚ)
  | 0, s, yfit => .ok (s, yfit)
  | k + 1, s, yfit =>
    match fitIter solve s yfit with
    | .error e => .error e
    | .ok sy => fitLoop solve k sy.1 sy.2

/-- self.fit(): yfit starts as self.y, self.linear_models is reset to
[], then the loop runs self.depth iterations. -/
def CFState.fit (solve : Solver) (s : CFState) : Except CFState CFState :=
  match fitLoop solve s.depth { s with linear_models := [] } s.y with
  | .ok sy => .ok sy.1
  | .error e => .error e

/-- One fit iteration with a total solver and with the discarded
predict call removed: the comparison loop of the refinement claim. -/
def fitIterNP (f : Matrix → List ℚ → LinModel) (s : CFState) (yfit : List ℚ) :
    CFState × List ℚ :=
  let d := s.linear_models.length
  let model := f s.X yfit
  let residual := vsub yfit (model.predict s.X)
  let c := |minD residual| + 1
  ({ s with
      linear_models := s.linear_models ++ [model]
      min_coeff := s.min_coeff.set (d + 1) c },
    vrecip (vaddc residual c))

/-- The call-free fit loop with k iterations remaining. -/
def fitLoopNP (f : Matrix → List ℚ → LinModel) : ℕ → CFState → List ℚ → CFState × List ℚ
  | 0, s, yfit => (s, yfit)
  | k + 1, s, yfit =>
    let sy := fitIterNP f s yfit
    fitLoopNP f k sy.1 sy.2

/-- fit with a total solver and the discarded predict call removed. -/
def CFState.fitNP (f : Matrix → List ℚ → LinModel) (s : CFState) : CFState :=
  (fitLoopNP f s.depth { s with linear_models := [] } s.y).1

/-- self.mse(test): mean squared error of the fitted model over the
stored training (test = false) or held-out (test = true) split; the
source divides by y_pred.shape[0]. -/
def CFState.mse (s : CFState) (test : Bool) : Option ℚ :=
  let X_pred := if test then s.X_test else s.X
  let y_true := if test then s.y_test else s.y
  match s.predictD X_pred with
  | none => none
  | some y_pred =>
    some (((vsub y_pred y_true).map (fun r => r ^ 2)).sum / (y_pred.length : ℚ))

/-- The recursive term R(d) of the nested-fraction formula stated by
the specification, written with the fuel k = max_depth - 1 - d: the
clause at fuel 0 is R(max_depth - 1). -/
def RspecAux (models : List LinModel) (minc : List ℚ) (X_pred : Matrix) :
    ℕ → ℕ → List ℚ
  | d, 0 => vsubc (vrecip ((models.getD d default).predict X_pred)) (minc.getD d 0)
  | d, k + 1 =>
    vsubc (vrecip (vadd ((models.getD d default).predict X_pred)
      (RspecAux models minc X_pred (d + 1) k))) (minc.getD d 0)

/-- R(d) of the specification formula, for 1 ≤ d ≤ max_depth - 1. -/
def Rspec (models : List LinModel) (minc : List ℚ) (X_pred : Matrix)
    (max_depth d : ℕ) : List ℚ :=
  RspecAux models minc X_pred d (max_depth - 1 - d)

/-- The working target yfit at the start of fit-loop iteration d, for
a total solver f: yfit 0 is the stored y, and each iteration replaces
it by the reciprocal of the offset-shifted residual. -/
def yfitSeq (f : Matrix → List ℚ → LinModel) (X : Matrix) (y : List ℚ) : ℕ → List ℚ
  | 0 => y
  | d + 1 =>
    let yf := yfitSeq f X y d
    let residual := vsub yf ((f X yf).predict X)
    vrecip (vaddc residual (|minD residual| + 1))

/-- The sub-model fitted at iteration d of the fit loop. -/
def subSeq (f : Matrix → List ℚ → LinModel) (X : Matrix) (y : List ℚ) (d : ℕ) : LinModel :=
  f X (yfitSeq f X y d)

/-- The in-sample residual computed at iteration d of the fit loop. -/
def residSeq (f : Matrix → List ℚ → LinModel) (X : Matrix) (y : List ℚ) (d : ℕ) : List ℚ :=
  vsub (yfitSeq f X y d) ((subSeq f X y d).predict X)

/-- The pole-avoidance constant stored into min_coeff[d + 1] at
iteration d of the fit loop. -/
def offSeq (f : Matrix → List ℚ → LinModel) (X : Matrix) (y : List ℚ) (d : ℕ) : ℚ :=
  |minD (residSeq f X y d)| + 1

/-- The min_coeff array after the first k iterations of the fit loop,
starting from the array minc0. -/
def mincAfter (f : Matrix → List ℚ → LinModel) (X : Matrix) (y : List ℚ)
    (minc0 : List ℚ) : ℕ → List ℚ
  | 0 => minc0
  | k + 1 => (mincAfter f X y minc0 k).set (k + 1) (offSeq f X y k)

/-- The object state after the first k iterations of the fit loop of
s.fit (linear_models cleared at entry, then one sub-model appended and
one offset stored per iteration). -/
def fitPartial (f : Matrix → List ℚ → LinModel) (s : CFState) (k : ℕ) : CFState :=
  { s with
    linear_models := (List.range k).map (subSeq f s.X s.y)
    min_coeff := mincAfter f s.X s.y s.min_coeff k }

/-- The object state at the discarded self.predict(self.X, d + 1) call
inside fit-loop iteration j: the iteration's sub-model is already
appended, its offset not yet stored. -/
def midState (f : Matrix → List ℚ → LinModel) (s : CFState) (j : ℕ) : CFState :=
  { s with
    linear_models := (List.range (j + 1)).map (subSeq f s.X s.y)
    min_coeff := mincAfter f s.X s.y s.min_coeff j }

/-- Squared-error objective of a candidate sub-model on (X, y), the
quantity sklearn least squares minimizes. -/
def sse (m : LinModel) (X : Matrix) (y : List ℚ) : ℚ :=
  ((vsub y (m.predict X)).map (fun r => r ^ 2)).sum

/-- m has an optimal intercept for (X, y): no intercept shift lowers
the squared error.  Exact ordinary least squares satisfies this (it
minimizes over all models), and so does Lasso, whose L1 penalty does
not involve the intercept. -/
def InterceptOpt (m : LinModel) (X : Matrix) (y : List ℚ) : Prop :=
  ∀ c : ℚ, sse m X y ≤ sse { m with intercept := m.intercept + c } X y

section HelperLemmas

/-- The fold computing minD is bounded by its initial value. -/
lemma foldl_min_le_init (t : List ℚ) (a : ℚ) : t.foldl min a ≤ a := by
  induction t generalizing a with
  | nil => exact le_refl a
  | cons b t ih => exact le_trans (ih (min a b)) (min_le_left a b)

/-- The fold computing minD is bounded by every list element. -/
lemma foldl_min_le_mem (t : List ℚ) (a : ℚ) : ∀ x ∈ t, t.foldl min a ≤ x := by
  induction t generalizing a with
  | nil => intro x hx; cases hx
  | cons b t ih =>
    intro x hx
    rcases List.mem_cons.mp hx with h | h
    · subst h
      exact le_trans (foldl_min_le_init t (min a x)) (min_le_right a x)
    · exact ih (min a b) x h

/-- numpy min is a lower bound on the array entries. -/
lemma minD_le {l : List ℚ} {x : ℚ} (hx : x ∈ l) : minD l ≤ x := by
  cases l with
  | nil => cases hx
  | cons a t =>
    rcases List.mem_cons.mp hx with h | h
    · subst h; exact foldl_min_le_init t x
    · exact foldl_min_le_mem t a x h

/-- Folding min commutes with adding a constant to everything. -/
lemma foldl_min_map_add (t : List ℚ) (a c : ℚ) :
    (t.map (fun x => x + c)).foldl min (a + c) = t.foldl min a + c := by
  induction t generalizing a with
  | nil => rfl
  | cons b t ih =>
    simp only [List.map_cons, List.foldl_cons]
    rw [min_add_add_right a b c, ih]

/-- numpy min of a constant-shifted nonempty array. -/
lemma minD_vaddc {l : List ℚ} (h : l ≠ []) (c : ℚ) : minD (vaddc l c) = minD l + c := by
  cases l with
  | nil => exact absurd rfl h
  | cons a t => exact foldl_min_map_add t a c

/-- A lower bound on all entries bounds the sum from below. -/
lemma length_mul_le_sum {l : List ℚ} {c : ℚ} (h : ∀ x ∈ l, c ≤ x) :
    (l.length : ℚ) * c ≤ l.sum := by
  induction l with
  | nil => simp
  | cons a t ih =>
    have ha : c ≤ a := h a (List.mem_cons_self a t)
    have ht : (t.length : ℚ) * c ≤ t.sum := ih (fun x hx => h x (List.mem_cons_of_mem a hx))
    simp only [List.length_cons, List.sum_cons]
    push_cast
    nlinarith

/-- A nonempty list of rationals summing to zero has nonpositive
minimum. -/
lemma minD_nonpos_of_sum_eq_zero {l : List ℚ} (h : l ≠ []) (hs : l.sum = 0) :
    minD l ≤ 0 := by
  by_contra hpos
  push_neg at hpos
  have hb : ∀ x ∈ l, minD l ≤ x := fun x hx => minD_le hx
  have hlen : 1 ≤ (l.length : ℚ) := by
    have : 0 < l.length := List.length_pos.mpr h
    exact_mod_cast this
  have := length_mul_le_sum hb
  nlinarith

/-- Expansion of the shifted squared-error sum. -/
lemma sum_sq_shift (l : List ℚ) (c : ℚ) :
    ((l.map (fun x => (x - c) ^ 2)).sum)
      = (l.map (fun x => x ^ 2)).sum - 2 * c * l.sum + (l.length : ℚ) * c ^ 2 := by
  induction l with
  | nil => simp
  | cons a t ih =>
    simp only [List.map_cons, List.sum_cons, List.length_cons, ih]
    push_cast
    ring

/-- Shifting the intercept shifts every row prediction. -/
lemma predict_intercept_shift (m : LinModel) (X : Matrix) (c : ℚ) :
    ({ m with intercept := m.intercept + c } : LinModel).predict X
      = (m.predict X).map (fun x => x + c) := by
  simp only [LinModel.predict, List.map_map]
  refine List.map_congr_left (fun x hx => ?_)
  simp [LinModel.predictRow, Function.comp]
  ring

/-- Residuals against a constant-shifted prediction vector. -/
lemma vsub_map_add (y l : List ℚ) (c : ℚ) :
    vsub y (l.map (fun x => x + c)) = (vsub y l).map (fun x => x - c) := by
  simp only [vsub, List.zipWith_map_right, List.map_zipWith]
  have h : (fun a b => a - (b + c)) = (fun x y => x - y - c) := by
    funext a b; ring
  rw [h]

/-- An intercept-optimal sub-model has training residuals summing to
zero (perturbing the intercept by sum / n would otherwise lower the
squared error).  This is the property of the external least-squares
and Lasso solvers that the offset invariant of the specification rests
on. -/
lemma interceptOpt_sum_eq_zero {m : LinModel} {X : Matrix} {y : List ℚ}
    (hopt : InterceptOpt m X y) (hne : vsub y (m.predict X) ≠ []) :
    (vsub y (m.predict X)).sum = 0 := by
  set r := vsub y (m.predict X) with hr
  have hn : 0 < (r.length : ℚ) := by
    have : 0 < r.length := List.length_pos.mpr hne
    exact_mod_cast this
  by_contra hs
  have hkey := hopt (r.sum / (r.length : ℚ))
  rw [sse, sse, predict_intercept_shift, vsub_map_add, ← hr, List.map_map] at hkey
  have hcomp : ((fun r : ℚ => r ^ 2) ∘ fun x => x - r.sum / (r.length : ℚ))
      = fun x => (x - r.sum / (r.length : ℚ)) ^ 2 := by
    funext x; simp
  rw [hcomp, sum_sq_shift] at hkey
  set c := r.sum / (r.length : ℚ) with hc
  have hcs : (r.length : ℚ) * c = r.sum := by
    field_simp [hc]
  have hcpos : 0 < r.sum * c := by
    rcases lt_or_gt_of_ne hs with hneg | hpos
    · have : c < 0 := div_neg_of_neg_of_pos hneg hn
      exact mul_pos_of_neg_of_neg hneg this
    · have : 0 < c := div_pos hpos hn
      exact mul_pos hpos this
  have h2 : (r.length : ℚ) * c ^ 2 = r.sum * c := by
    rw [pow_two, ← mul_assoc, hcs]
  linarith [hkey, h2, hcpos]

end HelperLemmas

section LoopLemmas

/-- The fit loop never changes the length of min_coeff. -/
lemma mincAfter_length (f : Matrix → List ℚ → LinModel) (X : Matrix) (y : List ℚ)
    (minc0 : List ℚ) : ∀ k, (mincAfter f X y minc0 k).length = minc0.length := by
  intro k
  induction k with
  | zero => rfl
  | succ k ih => simp only [mincAfter, List.length_set, ih]

/-- Entry i of min_coeff after k fit iterations, for 1 ≤ i ≤ k: the
offset computed at iteration i - 1, untouched afterwards. -/
lemma mincAfter_getD_of_le (f : Matrix → List ℚ → LinModel) (X : Matrix) (y : List ℚ)
    (minc0 : List ℚ) : ∀ k i, 1 ≤ i → i ≤ k → i < minc0.length →
    (mincAfter f X y minc0 k).getD i 0 = offSeq f X y (i - 1) := by
  intro k
  induction k with
  | zero => intro i h1 h2 _; omega
  | succ k ih =>
    intro i h1 h2 h3
    rcases Nat.lt_or_ge i (k + 1) with hlt | hge
    · have hne : k + 1 ≠ i := by omega
      simp only [mincAfter, List.getD_eq_getElem?_getD, List.getElem?_set_ne hne]
      rw [← List.getD_eq_getElem?_getD]
      exact ih i h1 (by omega) h3
    · have hi : i = k + 1 := by omega
      subst hi
      have hlen : k + 1 < (mincAfter f X y minc0 k).length := by
        rw [mincAfter_length]; exact h3
      simp only [mincAfter, List.getD_eq_getElem?_getD, List.getElem?_set_self hlen]
      simp

/-- Entry i of min_coeff after k fit iterations, for i = 0 or i > k:
still the constructor value. -/
lemma mincAfter_getD_of_gt (f : Matrix → List ℚ → LinModel) (X : Matrix) (y : List ℚ)
    (minc0 : List ℚ) : ∀ k i, (i = 0 ∨ k < i) →
    (mincAfter f X y minc0 k).getD i 0 = minc0.getD i 0 := by
  intro k
  induction k with
  | zero => intro i _; rfl
  | succ k ih =>
    intro i hi
    have hne : k + 1 ≠ i := by omega
    simp only [mincAfter, List.getD_eq_getElem?_getD, List.getElem?_set_ne hne]
    rw [← List.getD_eq_getElem?_getD, ← List.getD_eq_getElem?_getD]
    exact ih i (by omega)

/-- getD of the all-zero constructor array is 0 everywhere. -/
lemma replicate_getD_zero (n i : ℕ) : (List.replicate n (0 : ℚ)).getD i 0 = 0 := by
  rw [List.getD_eq_getElem?_getD, List.getElem?_replicate]
  by_cases h : i < n <;> simp [h]

/-- Before any iteration the partial fit state is the object state at
fit entry (linear_models cleared). -/
lemma fitPartial_zero (f : Matrix → List ℚ → LinModel) (s : CFState) :
    fitPartial f s 0 = { s with linear_models := [] } := rfl

/-- One call-free fit iteration advances the partial state by one. -/
lemma fitIterNP_state (f : Matrix → List ℚ → LinModel) (s : CFState) (j : ℕ) :
    fitIterNP f (fitPartial f s j) (yfitSeq f s.X s.y j)
      = (fitPartial f s (j + 1), yfitSeq f s.X s.y (j + 1)) := by
  simp only [fitIterNP, fitPartial, List.length_map, List.length_range,
    List.range_succ, List.map_append, List.map_cons, List.map_nil]
  rfl

/-- Running k call-free iterations from the partial state after j. -/
lemma fitLoopNP_state (f : Matrix → List ℚ → LinModel) (s : CFState) :
    ∀ (k j : ℕ),
    fitLoopNP f k (fitPartial f s j) (yfitSeq f s.X s.y j)
      = (fitPartial f s (j + k), yfitSeq f s.X s.y (j + k)) := by
  intro k
  induction k with
  | zero => intro j; rfl
  | succ k ih =>
    intro j
    show fitLoopNP f k (fitIterNP f (fitPartial f s j) (yfitSeq f s.X s.y j)).1
        (fitIterNP f (fitPartial f s j) (yfitSeq f s.X s.y j)).2 = _
    rw [fitIterNP_state]
    have h : j + (k + 1) = j + 1 + k := by omega
    rw [h]
    exact ih (j + 1)

/-- The call-free fit computes exactly the partial state after all
depth iterations. -/
lemma fitNP_eq (f : Matrix → List ℚ → LinModel) (s : CFState) :
    s.fitNP f = fitPartial f s s.depth := by
  unfold CFState.fitNP
  rw [← fitPartial_zero f s]
  have h0 : s.y = yfitSeq f s.X s.y 0 := rfl
  rw [h0, fitLoopNP_state f s s.depth 0, Nat.zero_add]

/-- With every accessed index in range, compute_recursive returns the
specification term R. -/
lemma crec_eq (models : List LinModel) (minc : List ℚ) (X : Matrix) :
    ∀ (k d : ℕ), d + k < models.length → d + k < minc.length →
    compute_recursive models minc X d k = some (RspecAux models minc X d k) := by
  intro k
  induction k with
  | zero =>
    intro d h1 h2
    have hm : d < models.length := by omega
    have hc : d < minc.length := by omega
    simp only [compute_recursive, compute_depth, RspecAux,
      List.getElem?_eq_getElem hm, List.getElem?_eq_getElem hc,
      List.getD_eq_getElem?_getD]
    rfl
  | succ k ih =>
    intro d h1 h2
    have hm : d < models.length := by omega
    have hc : d < minc.length := by omega
    have hrec := ih (d + 1) (by omega) (by omega)
    simp only [compute_recursive, compute_depth, RspecAux, hrec,
      List.getElem?_eq_getElem hm, List.getElem?_eq_getElem hc,
      List.getD_eq_getElem?_getD]
    rfl

/-- When the sub-model list is exhausted before the recursion bottoms
out, compute_recursive fails with an IndexError (none). -/
lemma crec_none (models : List LinModel) (minc : List ℚ) (X : Matrix) :
    ∀ (k d : ℕ), d ≤ models.length → models.length ≤ d + k →
    compute_recursive models minc X d k = none := by
  intro k
  induction k with
  | zero =>
    intro d h1 h2
    have hd : models.length ≤ d := by omega
    have hnone : models[d]? = none := List.getElem?_eq_none hd
    simp [compute_recursive, compute_depth, hnone]
  | succ k ih =>
    intro d h1 h2
    rcases Nat.lt_or_ge d models.length with hd | hd
    · have hrec := ih (d + 1) (by omega) (by omega)
      simp only [compute_recursive, hrec]
      cases compute_depth models d X <;> cases minc[d]? <;> rfl
    · have hnone : models[d]? = none := List.getElem?_eq_none hd
      simp [compute_recursive, compute_depth, hnone]

/-- predict with max_depth < 2 (1, 0 or negative): no recursion, no
validation, just the depth-0 linear prediction. -/
lemma CFPredict_lt_two (models : List LinModel) (minc : List ℚ) (X : Matrix)
    (maxd : ℤ) (hmd : maxd < 2) (hm : 0 < models.length) :
    CFPredict models minc X maxd = some ((models.getD 0 default).predict X) := by
  unfold CFPredict
  rw [if_pos hmd]
  unfold compute_depth
  rw [List.getElem?_eq_getElem hm, List.getD_eq_getElem?_getD,
    List.getElem?_eq_getElem hm]
  rfl

/-- predict with 2 ≤ max_depth ≤ both array lengths: the nested
fraction of the specification. -/
lemma CFPredict_ge_two (models : List LinModel) (minc : List ℚ) (X : Matrix)
    (maxd : ℕ) (h2 : 2 ≤ maxd) (hm : maxd ≤ models.length) (hc : maxd ≤ minc.length) :
    CFPredict models minc X (maxd : ℤ)
      = some (vadd ((models.getD 0 default).predict X) (Rspec models minc X maxd 1)) := by
  unfold CFPredict
  rw [if_neg (by omega)]
  have ht : (((maxd : ℤ)) - 2).toNat = maxd - 2 := by omega
  have h0 : 0 < models.length := by omega
  have hcrec := crec_eq models minc X (maxd - 2) 1 (by omega) (by omega)
  rw [ht, hcrec]
  unfold compute_depth
  rw [List.getElem?_eq_getElem h0, List.getD_eq_getElem?_getD,
    List.getElem?_eq_getElem h0]
  have hfuel : maxd - 1 - 1 = maxd - 2 := by omega
  simp [Rspec, hfuel]

/-- predict with max_depth greater than the number of fitted
sub-models fails with an IndexError (none), for any fitted model. -/
lemma CFPredict_none_of_gt (models : List LinModel) (minc : List ℚ) (X : Matrix)
    (maxd : ℤ) (h1 : 1 ≤ models.length) (hmd : (models.length : ℤ) < maxd) :
    CFPredict models minc X maxd = none := by
  unfold CFPredict
  rw [if_neg (by omega)]
  have hnone := crec_none models minc X (maxd - 2).toNat 1 (by omega) (by omega)
  rw [hnone]
  cases compute_depth models 0 X <;> rfl

/-- predict succeeds whenever 1 ≤ max_depth is at most both the number
of sub-models and the length of min_coeff. -/
lemma CFPredict_isSome (models : List LinModel) (minc : List ℚ) (X : Matrix)
    (maxd : ℤ) (h1 : 1 ≤ maxd) (hm : maxd ≤ (models.length : ℤ))
    (hc : maxd ≤ (minc.length : ℤ)) :
    (CFPredict models minc X maxd).isSome = true := by
  rcases lt_or_ge maxd 2 with hlt | hge
  · rw [CFPredict_lt_two models minc X maxd hlt (by omega)]
    rfl
  · have hn : maxd = ((maxd.toNat : ℕ) : ℤ) := by omega
    rw [hn, CFPredict_ge_two models minc X maxd.toNat (by omega) (by omega) (by omega)]
    rfl

/-- A successful iteration of the faithful fit loop (the solver
returns a model and the discarded in-loop predict call succeeds)
produces exactly what the call-free iteration produces. -/
lemma fitIter_ok_of_solve (f : Matrix → List ℚ → LinModel) (solve : Solver)
    (s : CFState) (yfit : List ℚ)
    (hsolve : solve s.X yfit = some (f s.X yfit))
    (hmc : s.linear_models.length + 1 ≤ s.min_coeff.length) :
    fitIter solve s yfit = .ok (fitIterNP f s yfit) := by
  unfold fitIter
  rw [hsolve]
  have hsome := CFPredict_isSome (s.linear_models ++ [f s.X yfit]) s.min_coeff s.X
      ((s.linear_models.length : ℤ) + 1) (by omega) (by simp) (by omega)
  obtain ⟨p, hp⟩ := Option.isSome_iff_exists.mp hsome
  dsimp only
  rw [show (({ s with linear_models := s.linear_models ++ [f s.X yfit] } : CFState).predict
      ({ s with linear_models := s.linear_models ++ [f s.X yfit] } : CFState).X
      ((s.linear_models.length : ℤ) + 1)) = some p from hp]
  rfl

/-- The faithful fit loop over k successfully solving iterations
starting after iteration j: it completes and lands on the partial
state after j + k iterations. -/
lemma fitLoop_ok (f : Matrix → List ℚ → LinModel) (solve : Solver) (s : CFState) :
    ∀ (k j : ℕ),
    (∀ i, j ≤ i → i < j + k → solve s.X (yfitSeq f s.X s.y i) = some (subSeq f s.X s.y i)) →
    j + k ≤ s.min_coeff.length →
    fitLoop solve k (fitPartial f s j) (yfitSeq f s.X s.y j)
      = .ok (fitPartial f s (j + k), yfitSeq f s.X s.y (j + k)) := by
  intro k
  induction k with
  | zero => intro j _ _; rfl
  | succ k ih =>
    intro j hsolve hmc
    have hstep : fitIter solve (fitPartial f s j) (yfitSeq f s.X s.y j)
        = .ok (fitIterNP f (fitPartial f s j) (yfitSeq f s.X s.y j)) := by
      refine fitIter_ok_of_solve f solve (fitPartial f s j) (yfitSeq f s.X s.y j)
        (hsolve j (le_refl j) (by omega)) ?_
      simp only [fitPartial, List.length_map, List.length_range, mincAfter_length]
      omega
    rw [show fitLoop solve (k + 1) (fitPartial f s j) (yfitSeq f s.X s.y j)
        = (match fitIter solve (fitPartial f s j) (yfitSeq f s.X s.y j) with
           | .error e => .error e
           | .ok sy => fitLoop solve k sy.1 sy.2) from rfl]
    rw [hstep, fitIterNP_state]
    have harith : j + (k + 1) = j + 1 + k := by omega
    rw [harith]
    exact ih (j + 1) (fun i hi1 hi2 => hsolve i (by omega) (by omega)) (by omega)

/-- With a solver that succeeds at every iteration, the faithful fit
completes and its final state is the call-free computation's state. -/
lemma fit_ok (f : Matrix → List ℚ → LinModel) (solve : Solver) (s : CFState)
    (hsolve : ∀ i < s.depth, solve s.X (yfitSeq f s.X s.y i) = some (subSeq f s.X s.y i))
    (hmc : s.depth ≤ s.min_coeff.length) :
    s.fit solve = .ok (s.fitNP f) := by
  unfold CFState.fit
  rw [show ({ s with linear_models := [] } : CFState) = fitPartial f s 0 from rfl,
    show s.y = yfitSeq f s.X s.y 0 from rfl]
  rw [fitLoop_ok f solve s s.depth 0 (fun i _ h2 => hsolve i (by omega)) (by omega)]
  rw [fitNP_eq, Nat.zero_add]

/-- The faithful fit loop when the solver first fails at iteration
dfail: the loop raises there, and the exception carries the partial
state after the dfail completed iterations. -/
lemma fitLoop_err (f : Matrix → List ℚ → LinModel) (solve : Solver) (s : CFState)
    (dfail : ℕ)
    (hfail : solve s.X (yfitSeq f s.X s.y dfail) = none)
    (hmc : dfail ≤ s.min_coeff.length) :
    ∀ (k j : ℕ), j ≤ dfail → dfail < j + k →
    (∀ i, j ≤ i → i < dfail → solve s.X (yfitSeq f s.X s.y i) = some (subSeq f s.X s.y i)) →
    fitLoop solve k (fitPartial f s j) (yfitSeq f s.X s.y j)
      = .error (fitPartial f s dfail) := by
  intro k
  induction k with
  | zero => intro j h1 h2 _; omega
  | succ k ih =>
    intro j h1 h2 hok
    rw [show fitLoop solve (k + 1) (fitPartial f s j) (yfitSeq f s.X s.y j)
        = (match fitIter solve (fitPartial f s j) (yfitSeq f s.X s.y j) with
           | .error e => .error e
           | .ok sy => fitLoop solve k sy.1 sy.2) from rfl]
    rcases Nat.eq_or_lt_of_le h1 with heq | hlt
    · subst heq
      rw [show fitIter solve (fitPartial f s j) (yfitSeq f s.X s.y j)
          = .error (fitPartial f s j) from by unfold fitIter; rw [show solve
            (fitPartial f s j).X (yfitSeq f s.X s.y j) = none from hfail]]
    · have hstep : fitIter solve (fitPartial f s j) (yfitSeq f s.X s.y j)
          = .ok (fitIterNP f (fitPartial f s j) (yfitSeq f s.X s.y j)) := by
        refine fitIter_ok_of_solve f solve (fitPartial f s j) (yfitSeq f s.X s.y j)
          (hok j (le_refl j) hlt) ?_
        simp only [fitPartial, List.length_map, List.length_range, mincAfter_length]
        omega
      rw [hstep, fitIterNP_state]
      exact ih (j + 1) (by omega) (by omega) (fun i hi1 hi2 => hok i (by omega) hi2)

/-- The faithful fit when the solver first fails at iteration
dfail < depth: fit raises, and the object keeps the dfail sub-models
and offsets written before the failure. -/
lemma fit_err (f : Matrix → List ℚ → LinModel) (solve : Solver) (s : CFState)
    (dfail : ℕ) (hd : dfail < s.depth)
    (hfail : solve s.X (yfitSeq f s.X s.y dfail) = none)
    (hok : ∀ i < dfail, solve s.X (yfitSeq f s.X s.y i) = some (subSeq f s.X s.y i))
    (hmc : dfail ≤ s.min_coeff.length) :
    s.fit solve = .error (fitPartial f s dfail) := by
  unfold CFState.fit
  rw [show ({ s with linear_models := [] } : CFState) = fitPartial f s 0 from rfl,
    show s.y = yfitSeq f s.X s.y 0 from rfl]
  rw [fitLoop_err f solve s dfail hfail hmc s.depth 0 (by omega) (by omega)
    (fun i _ h2 => hok i h2)]

/-- Each fit iteration keeps the working target's length equal to the
target's length (when X has one row per target entry). -/
lemma yfitSeq_length (f : Matrix → List ℚ → LinModel) (X : Matrix) (y : List ℚ)
    (hX : X.length = y.length) : ∀ d, (yfitSeq f X y d).length = y.length := by
  intro d
  induction d with
  | zero => rfl
  | succ d ih =>
    show (vrecip (vaddc (vsub (yfitSeq f X y d) ((f X (yfitSeq f X y d)).predict X))
      (|minD (vsub (yfitSeq f X y d) ((f X (yfitSeq f X y d)).predict X))| + 1))).length
      = y.length
    simp [vrecip, vaddc, vsub, LinModel.predict, List.length_zipWith, ih, hX]

/-- The training residual at each iteration has one entry per target
entry. -/
lemma residSeq_length (f : Matrix → List ℚ → LinModel) (X : Matrix) (y : List ℚ)
    (hX : X.length = y.length) (d : ℕ) : (residSeq f X y d).length = y.length := by
  simp [residSeq, vsub, List.length_zipWith, subSeq, LinModel.predict,
    yfitSeq_length f X y hX d, hX]

/-- On a nonempty dataset the training residual is nonempty. -/
lemma residSeq_ne_nil (f : Matrix → List ℚ → LinModel) (X : Matrix) (y : List ℚ)
    (hX : X.length = y.length) (hy : y ≠ []) (d : ℕ) : residSeq f X y d ≠ [] := by
  intro hcon
  have h1 := residSeq_length f X y hX d
  rw [hcon] at h1
  exact hy (List.eq_nil_of_length_eq_zero h1.symm)

/-- The specification term R always has one entry per row of X_pred. -/
lemma RspecAux_length (models : List LinModel) (minc : List ℚ) (X_pred : Matrix) :
    ∀ (k d : ℕ), (RspecAux models minc X_pred d k).length = X_pred.length := by
  intro k
  induction k with
  | zero =>
    intro d
    simp [RspecAux, vsubc, vrecip, LinModel.predict]
  | succ k ih =>
    intro d
    simp [RspecAux, vsubc, vrecip, vadd, List.length_zipWith, LinModel.predict, ih (d + 1)]

end LoopLemmas

section Claims

/-- C1: for every fitted model (D sub-models, D ≥ 1, offset array of
length D + 2), every feature matrix X_pred and every
1 ≤ max_depth ≤ D: with max_depth = 1, predict(X_pred, max_depth)
equals sub_model[0].predict(X_pred) exactly; with max_depth ≥ 2 it
equals sub_model[0].predict(X_pred) + R(1), where
R(max_depth - 1) = 1 / sub_model[max_depth-1].predict(X_pred)
- offset[max_depth-1] and R(d) = 1 / (sub_model[d].predict(X_pred)
+ R(d+1)) - offset[d] for 1 ≤ d < max_depth - 1, every level applied
to the same original X_pred. -/
theorem C1_predict_nested_fraction (models : List LinModel) (minc : List ℚ)
    (X_pred : Matrix) (D maxd : ℕ)
    (hD : 1 ≤ D) (hm : models.length = D) (hc : minc.length = D + 2)
    (h1 : 1 ≤ maxd) (h2 : maxd ≤ D) :
    (maxd = 1 →
      CFPredict models minc X_pred (maxd : ℤ)
        = some ((models.getD 0 default).predict X_pred)) ∧
    (2 ≤ maxd →
      CFPredict models minc X_pred (maxd : ℤ)
        = some (vadd ((models.getD 0 default).predict X_pred)
            (Rspec models minc X_pred maxd 1))) := by
  constructor
  · intro he
    subst he
    exact CFPredict_lt_two models minc X_pred 1 (by omega) (by omega)
  · intro hge
    exact CFPredict_ge_two models minc X_pred maxd hge (by omega) (by omega)

/-- Witness for C1: a fitted depth-2 model (sub-models x and 2x + 1,
offsets [0, 5, 7, 0]) on the single row [3]: the nested fraction gives
3 + (1 / 7 - 5) = -13/7. -/
theorem C1_predict_nested_fraction_witness :
    CFPredict [⟨[1], 0⟩, ⟨[2], 1⟩] [0, 5, 7, 0] [[3]] ((2 : ℕ) : ℤ) = some [-13/7] :=
  ((C1_predict_nested_fraction [⟨[1], 0⟩, ⟨[2], 1⟩] [0, 5, 7, 0] [[3]] 2 2
      (by decide) (by decide) (by decide) (by decide) (by decide)).2 (by decide)).trans
    (by norm_num [Rspec, RspecAux, LinModel.predict, LinModel.predictRow, vadd, vsubc,
      vrecip, List.zipWith])

/-- C4 counterexample: on a fitted depth-1 model, predict with
max_depth = 0 raises nothing at all: it returns the base sub-model
prediction, contradicting the claimed InvalidParameter error. -/
theorem C4_counterexample :
    CFPredict [⟨[1], 0⟩] [0, 2, 0] [[5]] 0 = some [5] := by
  norm_num [CFPredict, compute_depth, LinModel.predict, LinModel.predictRow]

/-- C4 amended: predict performs no max_depth validation: for
max_depth ≤ 1 (0 and negative included) it silently returns
sub_model[0].predict(X_pred), and for max_depth > fitted depth it
fails with an out-of-range index access (IndexError, modelled none),
not an InvalidParameter. -/
theorem C4_no_validation (models : List LinModel) (minc : List ℚ) (X_pred : Matrix)
    (D : ℕ) (maxd : ℤ) (hD : 1 ≤ D) (hm : models.length = D) (hc : minc.length = D + 2) :
    (maxd ≤ 1 →
      CFPredict models minc X_pred maxd = some ((models.getD 0 default).predict X_pred)) ∧
    ((D : ℤ) < maxd → CFPredict models minc X_pred maxd = none) := by
  constructor
  · intro hle
    exact CFPredict_lt_two models minc X_pred maxd (by omega) (by omega)
  · intro hgt
    exact CFPredict_none_of_gt models minc X_pred maxd (by omega) (by omega)

/-- Witness for the amended C4 at max_depth = -7 on a fitted depth-1
model. -/
theorem C4_no_validation_witness :
    ((-7 : ℤ) ≤ 1 →
      CFPredict [⟨[1], 0⟩] [0, 2, 0] [[5]] (-7)
        = some ((([⟨[1], 0⟩] : List LinModel).getD 0 default).predict [[5]])) ∧
    (((1 : ℕ) : ℤ) < -7 → CFPredict [⟨[1], 0⟩] [0, 2, 0] [[5]] (-7) = none) :=
  C4_no_validation [⟨[1], 0⟩] [0, 2, 0] [[5]] 1 (-7) (by decide) (by decide) (by decide)

/-- C5 counterexample: with depth = 0, construction succeeds and fit
completes without any error (zero iterations, empty sub-model list),
even under a solver that always fails: no InvalidParameter is
raised. -/
theorem C5_counterexample :
    (mkState 0 [[1]] [2] 1 false).fit (fun _ _ => none)
      = .ok (mkState 0 [[1]] [2] 1 false) := rfl

/-- C5 amended: for depth = 0 (the nonpositive depth expressible
here), construction succeeds and fit performs zero iterations and
returns successfully, leaving the model with no sub-models; the code
contains no InvalidParameter validation. -/
theorem C5_depth_zero_fit_completes (X : Matrix) (y : List ℚ) (norm : ℚ)
    (lasso : Bool) (solve : Solver) :
    (mkState 0 X y norm lasso).fit solve = .ok (mkState 0 X y norm lasso) := rfl

/-- C2: for every dataset and depth, fit with a total solver runs
exactly depth iterations with no convergence check or early stopping,
fitting at iteration d the selected linear regressor (OLS, or Lasso
exactly when the lasso flag is set) on (X, yfit_d) stored as
sub_model[d], where yfit_0 = y and yfit_{d+1} is the elementwise
reciprocal of yfit_d - sub_model[d].predict(X) + offset[d+1] (the
stored offset); the features used at every depth are the original X,
never a transformed version. -/
theorem C2_fit_depth_iterations (ols lassoFit g : Matrix → List ℚ → LinModel)
    (s : CFState)
    (hg : g = fun A b => if s.lasso then lassoFit A b else ols A b)
    (hmc : s.min_coeff.length = s.depth + 2) :
    ∃ s2 : CFState,
      s.fit (fun A b => some (g A b)) = .ok s2 ∧
      s2.linear_models.length = s.depth ∧
      yfitSeq g s.X s.y 0 = s.y ∧
      ∀ d < s.depth,
        s2.linear_models[d]? = some (g s.X (yfitSeq g s.X s.y d)) ∧
        yfitSeq g s.X s.y (d + 1)
          = vrecip (vaddc (vsub (yfitSeq g s.X s.y d)
              ((g s.X (yfitSeq g s.X s.y d)).predict s.X))
              (s2.min_coeff.getD (d + 1) 0)) := by
  clear hg
  refine ⟨s.fitNP g, fit_ok g _ s (fun i _ => rfl) (by omega), ?_, rfl, ?_⟩
  · rw [fitNP_eq]
    simp [fitPartial]
  · intro d hd
    constructor
    · rw [fitNP_eq]
      show ((List.range s.depth).map (subSeq g s.X s.y))[d]? = _
      rw [List.getElem?_map, List.getElem?_range hd]
      rfl
    · have hoff : (s.fitNP g).min_coeff.getD (d + 1) 0 = offSeq g s.X s.y d := by
        rw [fitNP_eq]
        show (mincAfter g s.X s.y s.min_coeff s.depth).getD (d + 1) 0 = _
        exact mincAfter_getD_of_le g s.X s.y s.min_coeff s.depth (d + 1)
          (by omega) (by omega) (by omega)
      rw [hoff]
      rfl

/-- Witness for C2: depth 1, one-row dataset, constant-zero OLS solver
(and a different Lasso solver that the false flag must not select). -/
theorem C2_fit_depth_iterations_witness :
    ∃ s2 : CFState,
      (mkState 1 [[1]] [2] 1 false).fit
          (fun A b => some ((fun _ _ => (⟨[0], 0⟩ : LinModel)) A b)) = .ok s2 ∧
      s2.linear_models.length = (mkState 1 [[1]] [2] 1 false).depth ∧
      yfitSeq (fun _ _ => (⟨[0], 0⟩ : LinModel)) (mkState 1 [[1]] [2] 1 false).X
          (mkState 1 [[1]] [2] 1 false).y 0 = (mkState 1 [[1]] [2] 1 false).y ∧
      ∀ d < (mkState 1 [[1]] [2] 1 false).depth,
        s2.linear_models[d]? = some ((fun _ _ => (⟨[0], 0⟩ : LinModel))
            (mkState 1 [[1]] [2] 1 false).X
            (yfitSeq (fun _ _ => (⟨[0], 0⟩ : LinModel)) (mkState 1 [[1]] [2] 1 false).X
              (mkState 1 [[1]] [2] 1 false).y d)) ∧
        yfitSeq (fun _ _ => (⟨[0], 0⟩ : LinModel)) (mkState 1 [[1]] [2] 1 false).X
            (mkState 1 [[1]] [2] 1 false).y (d + 1)
          = vrecip (vaddc (vsub (yfitSeq (fun _ _ => (⟨[0], 0⟩ : LinModel))
                (mkState 1 [[1]] [2] 1 false).X (mkState 1 [[1]] [2] 1 false).y d)
              (((fun _ _ => (⟨[0], 0⟩ : LinModel)) (mkState 1 [[1]] [2] 1 false).X
                (yfitSeq (fun _ _ => (⟨[0], 0⟩ : LinModel)) (mkState 1 [[1]] [2] 1 false).X
                  (mkState 1 [[1]] [2] 1 false).y d)).predict
                (mkState 1 [[1]] [2] 1 false).X))
              (s2.min_coeff.getD (d + 1) 0)) :=
  C2_fit_depth_iterations (fun _ _ => ⟨[0], 0⟩) (fun _ _ => ⟨[1], 1⟩)
    (fun _ _ => ⟨[0], 0⟩) (mkState 1 [[1]] [2] 1 false) rfl (by decide)

/-- C3: for every fitted depth d, the stored offset is
abs(min residual_d) + 1 for the training residual residual_d, the
shifted residual is strictly positive at every training row, and its
minimum over the training rows is exactly 1.  The residual-sums-zero
hypothesis is the property of the external least-squares and Lasso
solvers (both fit an unpenalized intercept) proved to follow from
intercept optimality in interceptOpt_sum_eq_zero. -/
theorem C3_offset_pole_avoidance (f : Matrix → List ℚ → LinModel) (s : CFState)
    (hmc : s.min_coeff.length = s.depth + 2)
    (hX : s.X.length = s.y.length) (hy : s.y ≠ [])
    (hsum : ∀ d < s.depth, (residSeq f s.X s.y d).sum = 0) :
    ∃ s2 : CFState,
      s.fit (fun A b => some (f A b)) = .ok s2 ∧
      ∀ d < s.depth,
        s2.min_coeff.getD (d + 1) 0 = |minD (residSeq f s.X s.y d)| + 1 ∧
        (∀ r ∈ vaddc (residSeq f s.X s.y d) (s2.min_coeff.getD (d + 1) 0), 0 < r) ∧
        minD (vaddc (residSeq f s.X s.y d) (s2.min_coeff.getD (d + 1) 0)) = 1 := by
  refine ⟨s.fitNP f, fit_ok f _ s (fun i _ => rfl) (by omega), ?_⟩
  intro d hd
  have hne := residSeq_ne_nil f s.X s.y hX hy d
  have hminle : minD (residSeq f s.X s.y d) ≤ 0 :=
    minD_nonpos_of_sum_eq_zero hne (hsum d hd)
  have hoff : (s.fitNP f).min_coeff.getD (d + 1) 0 = offSeq f s.X s.y d := by
    rw [fitNP_eq]
    show (mincAfter f s.X s.y s.min_coeff s.depth).getD (d + 1) 0 = _
    exact mincAfter_getD_of_le f s.X s.y s.min_coeff s.depth (d + 1)
      (by omega) (by omega) (by omega)
  refine ⟨hoff, ?_, ?_⟩
  · rw [hoff]
    intro r hr
    obtain ⟨x, hx, rfl⟩ := List.mem_map.mp hr
    have h1 : minD (residSeq f s.X s.y d) ≤ x := minD_le hx
    have h2 : -(|minD (residSeq f s.X s.y d)|) ≤ minD (residSeq f s.X s.y d) :=
      neg_abs_le _
    show 0 < x + offSeq f s.X s.y d
    simp only [offSeq]
    linarith
  · rw [hoff, minD_vaddc hne]
    simp only [offSeq, abs_of_nonpos hminle]
    ring

/-- Witness for C3: depth 1 on the dataset X = [[1], [2]],
y = [1, -1] with the constant-zero solver, whose residual [1, -1]
sums to zero; the offset stored is 2 and the shifted residual [3, 1]
has minimum exactly 1. -/
theorem C3_offset_pole_avoidance_witness :
    ∃ s2 : CFState,
      (mkState 1 [[1], [2]] [1, -1] 1 false).fit
          (fun A b => some ((fun _ _ => (⟨[0], 0⟩ : LinModel)) A b)) = .ok s2 ∧
      ∀ d < (mkState 1 [[1], [2]] [1, -1] 1 false).depth,
        s2.min_coeff.getD (d + 1) 0
          = |minD (residSeq (fun _ _ => (⟨[0], 0⟩ : LinModel))
              (mkState 1 [[1], [2]] [1, -1] 1 false).X
              (mkState 1 [[1], [2]] [1, -1] 1 false).y d)| + 1 ∧
        (∀ r ∈ vaddc (residSeq (fun _ _ => (⟨[0], 0⟩ : LinModel))
              (mkState 1 [[1], [2]] [1, -1] 1 false).X
              (mkState 1 [[1], [2]] [1, -1] 1 false).y d)
            (s2.min_coeff.getD (d + 1) 0), 0 < r) ∧
        minD (vaddc (residSeq (fun _ _ => (⟨[0], 0⟩ : LinModel))
              (mkState 1 [[1], [2]] [1, -1] 1 false).X
              (mkState 1 [[1], [2]] [1, -1] 1 false).y d)
            (s2.min_coeff.getD (d + 1) 0)) = 1 :=
  C3_offset_pole_avoidance (fun _ _ => ⟨[0], 0⟩) (mkState 1 [[1], [2]] [1, -1] 1 false)
    (by decide) (by decide) (by simp [mkState])
    (by
      intro d hd
      have hd1 : d < 1 := hd
      have hd0 : d = 0 := by omega
      subst hd0
      norm_num [residSeq, yfitSeq, subSeq, vsub, LinModel.predict, LinModel.predictRow,
        mkState, List.zipWith])

/-- C6 counterexample: depth 2, the solver succeeds at iteration 0 and
fails at iteration 1: fit raises, but the exception-time object keeps
the one fitted sub-model and its offset, and predict(X, 1) reads that
partial state successfully — fit is not atomic. -/
theorem C6_counterexample :
    ∃ e : CFState,
      (⟨2, [[1]], [2], [], [], false, [], [0, 0, 0, 0]⟩ : CFState).fit
          (fun _ yf => if yf = [2] then some ⟨[0], 0⟩ else none) = .error e ∧
      e.linear_models.length = 1 ∧
      (e.predict [[1]] 1).isSome = true := by
  refine ⟨fitPartial (fun _ _ => ⟨[0], 0⟩) ⟨2, [[1]], [2], [], [], false, [], [0, 0, 0, 0]⟩ 1,
    fit_err (fun _ _ => ⟨[0], 0⟩) _ _ 1 (by decide) ?_ ?_ (by decide), by simp [fitPartial], ?_⟩
  · norm_num [yfitSeq, vsub, vaddc, vrecip, minD, LinModel.predict, LinModel.predictRow,
      List.zipWith]
  · intro i hi
    have hi0 : i = 0 := by omega
    subst hi0
    norm_num [yfitSeq, subSeq]
  · unfold CFState.predict
    apply CFPredict_isSome
    · omega
    · simp [fitPartial]
    · simp [fitPartial, mincAfter_length]

/-- C6 amended: fit is not atomic: if the linear solve fails at
iteration dfail ≥ 1 after dfail successful iterations, fit raises with
the first dfail sub-models and their offsets still stored on the
instance, and predict with any 1 ≤ max_depth ≤ dfail reads this
partial state successfully. -/
theorem C6_partial_state_on_failure (f : Matrix → List ℚ → LinModel) (solve : Solver)
    (s : CFState) (dfail : ℕ)
    (hmc : s.min_coeff.length = s.depth + 2)
    (hd : dfail < s.depth) (h1 : 1 ≤ dfail)
    (hfail : solve s.X (yfitSeq f s.X s.y dfail) = none)
    (hok : ∀ i < dfail, solve s.X (yfitSeq f s.X s.y i) = some (subSeq f s.X s.y i)) :
    ∃ e : CFState,
      s.fit solve = .error e ∧
      e.linear_models.length = dfail ∧
      ∀ maxd : ℤ, 1 ≤ maxd → maxd ≤ (dfail : ℤ) →
        (e.predict s.X maxd).isSome = true := by
  refine ⟨fitPartial f s dfail,
    fit_err f solve s dfail hd hfail hok (by omega), by simp [fitPartial], ?_⟩
  intro maxd hmd1 hmd2
  unfold CFState.predict
  apply CFPredict_isSome
  · omega
  · show maxd ≤ (((List.range dfail).map (subSeq f s.X s.y)).length : ℤ)
    simp
    omega
  · show maxd ≤ ((mincAfter f s.X s.y s.min_coeff dfail).length : ℤ)
    rw [mincAfter_length]
    omega

/-- Witness for the amended C6 at the concrete depth-2 run whose
solver fails at iteration 1. -/
theorem C6_partial_state_on_failure_witness :
    ∃ e : CFState,
      (⟨2, [[1]], [2], [], [], false, [], [0, 0, 0, 0]⟩ : CFState).fit
          (fun _ yf => if yf = [2] then some ⟨[0], 0⟩ else none) = .error e ∧
      e.linear_models.length = 1 ∧
      ∀ maxd : ℤ, 1 ≤ maxd → maxd ≤ ((1 : ℕ) : ℤ) →
        (e.predict (⟨2, [[1]], [2], [], [], false, [], [0, 0, 0, 0]⟩ : CFState).X
          maxd).isSome = true :=
  C6_partial_state_on_failure (fun _ _ => ⟨[0], 0⟩)
    (fun _ yf => if yf = [2] then some ⟨[0], 0⟩ else none)
    ⟨2, [[1]], [2], [], [], false, [], [0, 0, 0, 0]⟩ 1 (by decide) (by decide) (by decide)
    (by norm_num [yfitSeq, vsub, vaddc, vrecip, minD, LinModel.predict,
      LinModel.predictRow, List.zipWith])
    (by
      intro i hi
      have hi0 : i = 0 := by omega
      subst hi0
      norm_num [yfitSeq, subSeq])

/-- C7: after fit returns, the stored target vector y is element-wise
identical to its value before fit was called: the loop rebinds its
working target and never writes the stored y, which stays available to
the caller. -/
theorem C7_fit_preserves_y (f : Matrix → List ℚ → LinModel) (s : CFState)
    (hmc : s.min_coeff.length = s.depth + 2) :
    ∃ s2 : CFState, s.fit (fun A b => some (f A b)) = .ok s2 ∧ s2.y = s.y := by
  refine ⟨s.fitNP f, fit_ok f _ s (fun i _ => rfl) (by omega), ?_⟩
  rw [fitNP_eq]
  rfl

/-- Witness for C7 on a depth-1 one-row dataset. -/
theorem C7_fit_preserves_y_witness :
    ∃ s2 : CFState,
      (mkState 1 [[1]] [2] 1 false).fit
          (fun A b => some ((fun _ _ => (⟨[0], 0⟩ : LinModel)) A b)) = .ok s2 ∧
      s2.y = (mkState 1 [[1]] [2] 1 false).y :=
  C7_fit_preserves_y (fun _ _ => ⟨[0], 0⟩) (mkState 1 [[1]] [2] 1 false) (by decide)

/-- C8: min_coeff keeps exactly depth + 2 entries through the whole
fit loop; entry i (1 ≤ i ≤ depth) is 0 after every iteration k < i and
holds the iteration i - 1 offset after every iteration k ≥ i — written
exactly once, at its own iteration; after fit, entries 0 and depth + 1
are 0 and every entry is nonnegative. -/
theorem C8_min_coeff_invariants (f : Matrix → List ℚ → LinModel) (s : CFState)
    (hmc : s.min_coeff = List.replicate (s.depth + 2) 0) :
    (∀ k, k ≤ s.depth →
      (mincAfter f s.X s.y s.min_coeff k).length = s.depth + 2 ∧
      ∀ i, (mincAfter f s.X s.y s.min_coeff k).getD i 0
        = if 1 ≤ i ∧ i ≤ k then offSeq f s.X s.y (i - 1) else 0) ∧
    ∃ s2 : CFState,
      s.fit (fun A b => some (f A b)) = .ok s2 ∧
      s2.min_coeff.length = s.depth + 2 ∧
      s2.min_coeff.getD 0 0 = 0 ∧
      s2.min_coeff.getD (s.depth + 1) 0 = 0 ∧
      (∀ i, 0 ≤ s2.min_coeff.getD i 0) ∧
      (∀ d < s.depth, s2.min_coeff.getD (d + 1) 0 = offSeq f s.X s.y d) := by
  have hlen : s.min_coeff.length = s.depth + 2 := by rw [hmc]; simp
  have htrace : ∀ k, k ≤ s.depth →
      (mincAfter f s.X s.y s.min_coeff k).length = s.depth + 2 ∧
      ∀ i, (mincAfter f s.X s.y s.min_coeff k).getD i 0
        = if 1 ≤ i ∧ i ≤ k then offSeq f s.X s.y (i - 1) else 0 := by
    intro k hk
    refine ⟨by rw [mincAfter_length, hlen], ?_⟩
    intro i
    by_cases hcond : 1 ≤ i ∧ i ≤ k
    · rw [if_pos hcond]
      exact mincAfter_getD_of_le f s.X s.y s.min_coeff k i hcond.1 hcond.2 (by omega)
    · rw [if_neg hcond]
      rw [mincAfter_getD_of_gt f s.X s.y s.min_coeff k i (by omega), hmc,
        replicate_getD_zero]
  refine ⟨htrace, s.fitNP f, fit_ok f _ s (fun i _ => rfl) (by omega), ?_⟩
  have hmc2 : (s.fitNP f).min_coeff = mincAfter f s.X s.y s.min_coeff s.depth := by
    rw [fitNP_eq]
    rfl
  obtain ⟨hL, hE⟩ := htrace s.depth (le_refl s.depth)
  rw [hmc2]
  refine ⟨hL, ?_, ?_, ?_, ?_⟩
  · rw [hE 0]
    simp
  · rw [hE (s.depth + 1)]
    simp
  · intro i
    rw [hE i]
    by_cases hcond : 1 ≤ i ∧ i ≤ s.depth
    · rw [if_pos hcond]
      have := abs_nonneg (minD (residSeq f s.X s.y (i - 1)))
      simp only [offSeq]
      linarith
    · rw [if_neg hcond]
  · intro d hd
    rw [hE (d + 1), if_pos (by omega), Nat.add_sub_cancel]

/-- Witness for C8 on a depth-1 one-row dataset with the constant-zero
solver. -/
theorem C8_min_coeff_invariants_witness :
    (∀ k, k ≤ (mkState 1 [[1]] [2] 1 false).depth →
      (mincAfter (fun _ _ => (⟨[0], 0⟩ : LinModel)) (mkState 1 [[1]] [2] 1 false).X
          (mkState 1 [[1]] [2] 1 false).y (mkState 1 [[1]] [2] 1 false).min_coeff k).length
        = (mkState 1 [[1]] [2] 1 false).depth + 2 ∧
      ∀ i, (mincAfter (fun _ _ => (⟨[0], 0⟩ : LinModel)) (mkState 1 [[1]] [2] 1 false).X
          (mkState 1 [[1]] [2] 1 false).y (mkState 1 [[1]] [2] 1 false).min_coeff k).getD i 0
        = if 1 ≤ i ∧ i ≤ k then offSeq (fun _ _ => (⟨[0], 0⟩ : LinModel))
            (mkState 1 [[1]] [2] 1 false).X (mkState 1 [[1]] [2] 1 false).y (i - 1)
          else 0) ∧
    ∃ s2 : CFState,
      (mkState 1 [[1]] [2] 1 false).fit
          (fun A b => some ((fun _ _ => (⟨[0], 0⟩ : LinModel)) A b)) = .ok s2 ∧
      s2.min_coeff.length = (mkState 1 [[1]] [2] 1 false).depth + 2 ∧
      s2.min_coeff.getD 0 0 = 0 ∧
      s2.min_coeff.getD ((mkState 1 [[1]] [2] 1 false).depth + 1) 0 = 0 ∧
      (∀ i, 0 ≤ s2.min_coeff.getD i 0) ∧
      (∀ d < (mkState 1 [[1]] [2] 1 false).depth,
        s2.min_coeff.getD (d + 1) 0 = offSeq (fun _ _ => (⟨[0], 0⟩ : LinModel))
          (mkState 1 [[1]] [2] 1 false).X (mkState 1 [[1]] [2] 1 false).y d) :=
  C8_min_coeff_invariants (fun _ _ => ⟨[0], 0⟩) (mkState 1 [[1]] [2] 1 false) rfl

/-- C9: for a fitted model whose stored evaluation split (training or
held-out) has as many feature rows as target entries, mse returns
sum((predict(X) - y_true)^2) / len(y_true); it is a pure read of the
model state — the formula is applied directly, with no special-casing
of any operand. -/
theorem C9_mse_formula (s : CFState) (test : Bool) (D : ℕ)
    (hD : 1 ≤ D) (hdepth : s.depth = D)
    (hm : s.linear_models.length = D) (hc : s.min_coeff.length = D + 2)
    (hrows : (if test then s.X_test else s.X).length
      = (if test then s.y_test else s.y).length) :
    ∃ y_pred : List ℚ,
      s.predictD (if test then s.X_test else s.X) = some y_pred ∧
      s.mse test = some ((((vsub y_pred (if test then s.y_test else s.y)).map
          (fun r => r ^ 2)).sum) / (((if test then s.y_test else s.y).length : ℚ))) := by
  have hpred : ∃ p : List ℚ,
      s.predictD (if test then s.X_test else s.X) = some p ∧
      p.length = (if test then s.X_test else s.X).length := by
    unfold CFState.predictD CFState.predict
    rcases Nat.lt_or_ge s.depth 2 with h2 | h2
    · refine ⟨_, CFPredict_lt_two s.linear_models s.min_coeff _ (s.depth : ℤ)
        (by omega) (by omega), ?_⟩
      simp [LinModel.predict]
    · refine ⟨_, CFPredict_ge_two s.linear_models s.min_coeff _ s.depth h2
        (by omega) (by omega), ?_⟩
      simp [vadd, List.length_zipWith, LinModel.predict, Rspec, RspecAux_length]
  obtain ⟨y_pred, hp, hplen⟩ := hpred
  refine ⟨y_pred, hp, ?_⟩
  unfold CFState.mse
  dsimp only
  rw [hp]
  dsimp only
  rw [hplen, hrows]

/-- Witness for C9 on a fitted depth-1 model evaluated on its training
split. -/
theorem C9_mse_formula_witness :
    ∃ y_pred : List ℚ,
      (⟨1, [[1]], [2], [], [], false, [⟨[1], 0⟩], [0, 9, 0]⟩ : CFState).predictD
          (if false then ([] : Matrix) else [[1]]) = some y_pred ∧
      (⟨1, [[1]], [2], [], [], false, [⟨[1], 0⟩], [0, 9, 0]⟩ : CFState).mse false
        = some ((((vsub y_pred (if false then ([] : List ℚ) else [2])).map
            (fun r => r ^ 2)).sum) / (((if false then ([] : List ℚ) else [2]).length : ℚ))) :=
  C9_mse_formula ⟨1, [[1]], [2], [], [], false, [⟨[1], 0⟩], [0, 9, 0]⟩ false 1
    (by decide) (by decide) (by decide) (by decide) (by decide)

/-- C10: during every fit iteration d the discarded
self.predict(self.X, d + 1) call is well-defined — at that point it
reads only the populated sub-models 0..d and offsets 1..d, with no
out-of-range access — and, predict being pure, fit with the call (the
source loop) returns exactly the state of the same loop with the call
removed. -/
theorem C10_discarded_predict_call (f : Matrix → List ℚ → LinModel) (s : CFState)
    (hmc : s.min_coeff.length = s.depth + 2) :
    (∀ j < s.depth,
      ((midState f s j).predict s.X ((j : ℤ) + 1)).isSome = true) ∧
    s.fit (fun A b => some (f A b)) = .ok (s.fitNP f) := by
  constructor
  · intro j hj
    unfold CFState.predict
    apply CFPredict_isSome
    · omega
    · show (j : ℤ) + 1 ≤ (((List.range (j + 1)).map (subSeq f s.X s.y)).length : ℤ)
      simp
    · show (j : ℤ) + 1 ≤ ((mincAfter f s.X s.y s.min_coeff j).length : ℤ)
      rw [mincAfter_length]
      omega
  · exact fit_ok f _ s (fun i _ => rfl) (by omega)

/-- Witness for C10 on a depth-1 one-row dataset with the
constant-zero solver. -/
theorem C10_discarded_predict_call_witness :
    (∀ j < (mkState 1 [[1]] [2] 1 false).depth,
      ((midState (fun _ _ => (⟨[0], 0⟩ : LinModel)) (mkState 1 [[1]] [2] 1 false) j).predict
        (mkState 1 [[1]] [2] 1 false).X ((j : ℤ) + 1)).isSome = true) ∧
    (mkState 1 [[1]] [2] 1 false).fit
        (fun A b => some ((fun _ _ => (⟨[0], 0⟩ : LinModel)) A b))
      = .ok ((mkState 1 [[1]] [2] 1 false).fitNP (fun _ _ => (⟨[0], 0⟩ : LinModel))) :=
  C10_discarded_predict_call (fun _ _ => ⟨[0], 0⟩) (mkState 1 [[1]] [2] 1 false) (by decide)

end Claims

end CF
